import Mathlib

/-!
Shallow embedding of `src/energy_comparison.py` (energy tariff comparison
script).  Money and energy amounts are modelled with `ℚ`; timestamps with `ℕ`
(seconds since the epoch).  A pandas `NaN` cell is modelled as `none` of
`Option ℚ`; a raw database cell (which may be SQL `NULL`, a non-numeric
string, or a number) is modelled by `RawVal`.
-/

namespace EnergyComparison

/-- A raw value of the `sum` or `state` column as returned by the sqlite
query: SQL `NULL` (pandas `NaN`, `notna` is false), a present but non-numeric
value (`notna` is true, `pd.to_numeric(errors=coerce)` yields `NaN`), or a
number. -/
inductive RawVal where
  | null : RawVal
  | nonNumeric : RawVal
  | num : ℚ → RawVal
deriving DecidableEq

/-- `pd.notna` on a raw cell: false exactly for SQL `NULL`. -/
def RawVal.notna : RawVal → Bool
  | .null => false
  | .nonNumeric => true
  | .num _ => true

/-- `pd.to_numeric(errors=coerce)` on a raw cell: `NaN` (`none`) unless the
cell is numeric. -/
def RawVal.toNumeric : RawVal → Option ℚ
  | .null => none
  | .nonNumeric => none
  | .num q => some q

/-- One row of the `statistics` query: `(start_ts, sum, state)`
(src/energy_comparison.py line 62). -/
structure Sample where
  start_ts : ℕ
  sum : RawVal
  state : RawVal
deriving DecidableEq

/-- `df['sum'].diff()` restricted to the tail of the series: each entry is
the current cumulative value minus the previous one, `NaN` (`none`) whenever
either side is `NaN` (src/energy_comparison.py line 103). -/
def diffDeltas : Option ℚ → List (ℕ × Option ℚ) → List (ℕ × Option ℚ)
  | _, [] => []
  | prev, (t, v) :: rest =>
      (t, v.bind fun a => prev.map fun b => a - b) :: diffDeltas v rest

/-- `hourly_consumption = df['sum'].diff()` followed by
`hourly_consumption.iloc[0] = df['sum'].iloc[0]`: the first entry is the
first cumulative value itself, later entries are successive differences
(src/energy_comparison.py lines 103-105). -/
def cumulativeDeltas : List (ℕ × Option ℚ) → List (ℕ × Option ℚ)
  | [] => []
  | (t, v) :: rest => (t, v) :: diffDeltas v rest

/-- `hourly_consumption[hourly_consumption < 0] = 0`: a negative value is
clamped to `0`; `NaN` compares false with `< 0` and is left untouched
(src/energy_comparison.py line 112). -/
def clampNeg (o : Option ℚ) : Option ℚ := o.map fun q => if q < 0 then 0 else q

/-- `hourly_consumption.dropna()`: keep only the entries whose value is not
`NaN` (src/energy_comparison.py line 115). -/
def dropna (l : List (ℕ × Option ℚ)) : List (ℕ × ℚ) :=
  l.filterMap fun p => p.2.map fun q => (p.1, q)

/-- Ordering of query rows by timestamp, used by
`df.sort_values('timestamp')`. -/
def tsLE (a b : Sample) : Prop := a.start_ts ≤ b.start_ts

instance : DecidableRel tsLE := fun a b => Nat.decLe a.start_ts b.start_ts

instance : IsTotal Sample tsLE := ⟨fun a b => Nat.le_total a.start_ts b.start_ts⟩

instance : IsTrans Sample tsLE := ⟨fun _ _ _ h h' => Nat.le_trans h h'⟩

/-- `df = df.sort_values('timestamp')`: the query rows sorted (stably)
ascending by timestamp (src/energy_comparison.py line 96). -/
def sortedSamples (samples : List Sample) : List Sample :=
  samples.insertionSort tsLE

/-- The branch of `get_statistics_data` choosing the data representation:
when any raw `sum` cell is non-null (`df['sum'].notna().any()`) the series
is cumulative and is differenced, otherwise the `state` column is used
directly as the hourly value (src/energy_comparison.py lines 100-109). -/
def rawDeltas (samples : List Sample) : List (ℕ × Option ℚ) :=
  if (sortedSamples samples).any (fun s => s.sum.notna) then
    cumulativeDeltas ((sortedSamples samples).map fun s => (s.start_ts, s.sum.toNumeric))
  else
    (sortedSamples samples).map fun s => (s.start_ts, s.state.toNumeric)

/-- The body of `get_statistics_data` after the query: sort rows by
timestamp, pick the cumulative (`sum`) branch when any raw `sum` cell is
non-null, otherwise the `state` branch, clamp negatives and drop `NaN`
(src/energy_comparison.py lines 92-117). -/
def hourly_consumption (samples : List Sample) : List (ℕ × ℚ) :=
  dropna ((rawDeltas samples).map fun p => (p.1, clampNeg p.2))

/-- `get_statistics_data`: raises `ValueError` when the query returned no
rows, otherwise returns the normalized hourly series
(src/energy_comparison.py lines 88-117). -/
def get_statistics_data (results : List Sample) : Except String (List (ℕ × ℚ)) :=
  if results.isEmpty then
    .error "No statistics data found for entity in the specified period"
  else
    .ok (hourly_consumption results)

/-- Truncation of a timestamp (seconds) to its hour boundary. -/
def hourFloor (t : ℕ) : ℕ := t / 3600 * 3600

/-- Index lookup in an hourly series: the value stored at key `t`
(first match). -/
def lookup : List (ℕ × ℚ) → ℕ → Option ℚ
  | [], _ => none
  | (k, v) :: rest, t => if k = t then some v else lookup rest t

/-- The index of `pd.DataFrame` built from the import and export series:
the sorted union of their keys, each key once
(src/energy_comparison.py lines 240-243). -/
def unionKeys (impS expS : List (ℕ × ℚ)) : List ℕ :=
  ((impS.map Prod.fst ++ expS.map Prod.fst).dedup).insertionSort (· ≤ ·)

/-- One row of the joined `combined` frame: hour key, import and export
values (possibly `NaN` when that hour is missing from one of the two
consumption series) and the price at that hour. -/
structure CombinedRow where
  ts : ℕ
  import_kwh : Option ℚ
  export_kwh : Option ℚ
  price : ℚ
deriving DecidableEq

/-- `combined = consumption_df.join(entsoe_prices, how=inner)`: an outer
union of the import and export series (the `DataFrame` constructor), inner
joined with the price series on the hour key
(src/energy_comparison.py lines 240-246). -/
def combined (impS expS prS : List (ℕ × ℚ)) : List CombinedRow :=
  (unionKeys impS expS).filterMap fun k =>
    (lookup prS k).map fun p => ⟨k, lookup impS k, lookup expS k, p⟩

/-- `total_import_kwh = import_hourly.sum()` over the full fetched series
(src/energy_comparison.py line 204). -/
def total_import_kwh (impS : List (ℕ × ℚ)) : ℚ := (impS.map Prod.snd).sum

/-- `total_export_kwh = export_hourly.sum()` over the full fetched series
(src/energy_comparison.py line 205). -/
def total_export_kwh (expS : List (ℕ × ℚ)) : ℚ := (expS.map Prod.snd).sum

/-- `fixed_import_cost = total_import_kwh * FIXED_IMPORT_PRICE`
(src/energy_comparison.py line 226); the price is a configuration value. -/
def fixed_import_cost (price : ℚ) (impS : List (ℕ × ℚ)) : ℚ :=
  total_import_kwh impS * price

/-- `fixed_export_credit = total_export_kwh * FIXED_EXPORT_PRICE`
(src/energy_comparison.py line 227). -/
def fixed_export_credit (price : ℚ) (expS : List (ℕ × ℚ)) : ℚ :=
  total_export_kwh expS * price

/-- `total_fixed_cost = fixed_import_cost - fixed_export_credit +
BASE_FIXED_MONTHLY * num_months` (src/energy_comparison.py lines 228-229). -/
def total_fixed_cost (ip ep base : ℚ) (months : ℕ) (impS expS : List (ℕ × ℚ)) : ℚ :=
  fixed_import_cost ip impS - fixed_export_credit ep expS + base * (months : ℚ)

/-- `combined['hourly_import_cost'] = import_kwh * (price + BASE_DYNAMIC_KWH)`
for one row; `NaN` propagates (src/energy_comparison.py lines 249-250). -/
def hourly_import_cost (markup : ℚ) (r : CombinedRow) : Option ℚ :=
  r.import_kwh.map fun q => q * (r.price + markup)

/-- `combined['hourly_export_credit'] = export_kwh * FIXED_EXPORT_PRICE`
for one row; `NaN` propagates (src/energy_comparison.py line 251). -/
def hourly_export_credit (ep : ℚ) (r : CombinedRow) : Option ℚ :=
  r.export_kwh.map fun q => q * ep

/-- `dynamic_import_cost = combined['hourly_import_cost'].sum()`; the pandas
sum skips `NaN` entries (src/energy_comparison.py line 253). -/
def dynamic_import_cost (markup : ℚ) (rows : List CombinedRow) : ℚ :=
  (rows.map fun r => (hourly_import_cost markup r).getD 0).sum

/-- `dynamic_export_credit = combined['hourly_export_credit'].sum()`; the
pandas sum skips `NaN` entries (src/energy_comparison.py line 254). -/
def dynamic_export_credit (ep : ℚ) (rows : List CombinedRow) : ℚ :=
  (rows.map fun r => (hourly_export_credit ep r).getD 0).sum

/-- `combined['import_kwh'].sum()`: total imported energy over the aligned
rows, skipping `NaN` (src/energy_comparison.py lines 258 and 265). -/
def aligned_import_kwh (rows : List CombinedRow) : ℚ :=
  (rows.map fun r => r.import_kwh.getD 0).sum

/-- `combined['export_kwh'].sum()`: total exported energy over the aligned
rows, skipping `NaN` (src/energy_comparison.py line 266). -/
def aligned_export_kwh (rows : List CombinedRow) : ℚ :=
  (rows.map fun r => r.export_kwh.getD 0).sum

/-- `total_dynamic_cost = dynamic_import_cost - dynamic_export_credit +
BASE_DYNAMIC_MONTHLY * num_months` (src/energy_comparison.py lines 255-256). -/
def total_dynamic_cost (markup ep base : ℚ) (months : ℕ) (rows : List CombinedRow) : ℚ :=
  dynamic_import_cost markup rows - dynamic_export_credit ep rows + base * (months : ℚ)

/-- The minimum of a series, `none` on the empty series (pandas
`Series.min`). -/
def seriesMin : List ℚ → Option ℚ
  | [] => none
  | q :: rest => some ((seriesMin rest).elim q (min q))

/-- `entsoe_prices.min()` as printed in the report's statistics section:
the minimum over the full fetched price series
(src/energy_comparison.py line 290). -/
def report_price_min (prS : List (ℕ × ℚ)) : Option ℚ :=
  seriesMin (prS.map Prod.snd)

/-- Modelled from the spec: the price minimum restricted to aligned hours,
following the words "descriptive statistics over the price series restricted
to aligned hours"; the script itself has no such computation.  Kept for
comparison with `report_price_min`. -/
def spec_aligned_price_min (impS expS prS : List (ℕ × ℚ)) : Option ℚ :=
  seriesMin ((combined impS expS prS).map CombinedRow.price)

/-- Modelled from the spec: the itemized form of the fixed-tariff import
cost, `Σ(import_kwh × constant)` per aligned hour, following the words
"both forms must be supported"; the script only computes the aggregate form
`total_import_kwh × constant`.  Kept for comparison with the aggregate. -/
def spec_itemized_fixed_import_cost (price : ℚ) (rows : List CombinedRow) : ℚ :=
  (rows.map fun r => r.import_kwh.getD 0 * price).sum

/-! Helper lemmas about `lookup`, `unionKeys` and `combined`. -/

theorem lookup_isSome {l : List (ℕ × ℚ)} {t : ℕ} :
    (lookup l t).isSome = true ↔ t ∈ l.map Prod.fst := by
  induction l with
  | nil => simp [lookup]
  | cons hd tl ih =>
    obtain ⟨k, v⟩ := hd
    by_cases hk : k = t
    · subst hk
      simp [lookup]
    · simp [lookup, hk, ih, Ne.symm hk]

theorem lookup_mem_snd {l : List (ℕ × ℚ)} {t : ℕ} {v : ℚ}
    (h : lookup l t = some v) : v ∈ l.map Prod.snd := by
  induction l with
  | nil => simp [lookup] at h
  | cons hd tl ih =>
    obtain ⟨k, w⟩ := hd
    simp only [lookup] at h
    split at h
    · simp only [Option.some.injEq] at h
      simp [h.symm]
    · simp [ih h]

theorem mem_unionKeys {a b : List (ℕ × ℚ)} {t : ℕ} :
    t ∈ unionKeys a b ↔ t ∈ a.map Prod.fst ∨ t ∈ b.map Prod.fst := by
  simp [unionKeys, List.mem_insertionSort, List.mem_dedup, List.mem_append]

theorem nodup_unionKeys (a b : List (ℕ × ℚ)) : (unionKeys a b).Nodup :=
  ((List.perm_insertionSort _ _).nodup_iff).mpr (List.nodup_dedup _)

theorem mem_combined_ts {i e p : List (ℕ × ℚ)} {t : ℕ} :
    t ∈ (combined i e p).map CombinedRow.ts ↔
      ((t ∈ i.map Prod.fst ∨ t ∈ e.map Prod.fst) ∧ t ∈ p.map Prod.fst) := by
  constructor
  · intro h
    simp only [combined, List.mem_map, List.mem_filterMap] at h
    obtain ⟨r, ⟨k, hk, hf⟩, hts⟩ := h
    obtain ⟨q, hq, hr⟩ := Option.map_eq_some'.mp hf
    have hkt : k = t := by rw [← hts, ← hr]
    subst hkt
    refine ⟨mem_unionKeys.mp hk, ?_⟩
    exact lookup_isSome.mp (by simp [hq])
  · rintro ⟨hie, hp⟩
    obtain ⟨q, hq⟩ := Option.isSome_iff_exists.mp (lookup_isSome.mpr hp)
    refine List.mem_map.mpr ⟨⟨t, lookup i t, lookup e t, q⟩, ?_, rfl⟩
    exact List.mem_filterMap.mpr ⟨t, mem_unionKeys.mpr hie, by simp [hq]⟩

theorem lookup_eq_none {l : List (ℕ × ℚ)} {t : ℕ}
    (h : t ∉ l.map Prod.fst) : lookup l t = none := by
  cases hv : lookup l t with
  | none => rfl
  | some v => exact absurd (lookup_isSome.mp (by simp [hv])) h

theorem filterMap_opt_map {β : Type} (l : List ℕ) (f : ℕ → Option ℚ) (g : ℕ → β) :
    (l.filterMap fun k => (f k).map fun _ => g k) =
      (l.filter fun k => (f k).isSome).map g := by
  induction l with
  | nil => rfl
  | cons hd tl ih =>
    cases hf : f hd <;>
      simp [List.filterMap_cons, List.filter_cons, hf, ih]

theorem sum_map_ite {K : List ℕ} {a : ℕ} {v : ℚ} {g : ℕ → ℚ}
    (hK : K.Nodup) (ha : a ∈ K) (hg : g a = 0) :
    (K.map fun k => if a = k then v else g k).sum = v + (K.map g).sum := by
  induction K with
  | nil => cases ha
  | cons b bs ih =>
    rcases List.mem_cons.mp ha with hab | hmem
    · subst hab
      have hnb : a ∉ bs := (List.nodup_cons.mp hK).1
      have hbs : (bs.map fun k => if a = k then v else g k) = bs.map g := by
        refine List.map_congr_left fun k hk => ?_
        have hne : a ≠ k := fun h => hnb (h ▸ hk)
        simp [hne]
      simp [hbs, hg]
    · have hnb : b ∉ bs := (List.nodup_cons.mp hK).1
      have hab : a ≠ b := fun h => hnb (h ▸ hmem)
      have ihv := ih (List.nodup_cons.mp hK).2 hmem
      simp only [List.map_cons, List.sum_cons, if_neg hab, ihv]
      ring

theorem sum_lookup_getD {l : List (ℕ × ℚ)} {K : List ℕ}
    (hK : K.Nodup) (hl : (l.map Prod.fst).Nodup)
    (hsub : ∀ k ∈ l.map Prod.fst, k ∈ K) :
    (K.map fun k => (lookup l k).getD 0).sum = (l.map Prod.snd).sum := by
  induction l with
  | nil =>
    simp only [lookup, List.map_nil, List.sum_nil]
    induction K with
    | nil => rfl
    | cons b bs ihb => simp [ihb]
  | cons hd tl ih =>
    obtain ⟨a, v⟩ := hd
    rw [List.map_cons] at hl
    have hmem : a ∈ K := hsub a (by simp)
    have hna : a ∉ tl.map Prod.fst := (List.nodup_cons.mp hl).1
    have htl : (tl.map Prod.fst).Nodup := (List.nodup_cons.mp hl).2
    have hsub' : ∀ k ∈ tl.map Prod.fst, k ∈ K := fun k hk => hsub k (by simp [hk])
    have hga : (lookup tl a).getD 0 = 0 := by rw [lookup_eq_none hna]; rfl
    have hfun : (K.map fun k => (lookup ((a, v) :: tl) k).getD 0) =
        K.map fun k => if a = k then v else (lookup tl k).getD 0 := by
      refine List.map_congr_left fun k _ => ?_
      by_cases hak : a = k <;> simp [lookup, hak]
    rw [hfun, sum_map_ite hK hmem hga, ih htl hsub']
    simp

theorem aligned_field_sum (i e p : List (ℕ × ℚ)) (sel : CombinedRow → Option ℚ)
    (ser : List (ℕ × ℚ))
    (hsel : ∀ k q, sel ⟨k, lookup i k, lookup e k, q⟩ = lookup ser k)
    (hns : (ser.map Prod.fst).Nodup)
    (hsp : ∀ t ∈ ser.map Prod.fst, t ∈ p.map Prod.fst)
    (hsu : ∀ t ∈ ser.map Prod.fst, t ∈ unionKeys i e) :
    ((combined i e p).map fun r => (sel r).getD 0).sum = (ser.map Prod.snd).sum := by
  unfold combined
  rw [List.map_filterMap]
  have hcomp : (fun k => ((lookup p k).map fun q =>
      (⟨k, lookup i k, lookup e k, q⟩ : CombinedRow)).map fun r => (sel r).getD 0) =
      fun k => (lookup p k).map fun _ => (lookup ser k).getD 0 := by
    funext k
    cases lookup p k with
    | none => rfl
    | some q => simp [hsel]
  rw [hcomp, filterMap_opt_map]
  refine sum_lookup_getD ?_ hns ?_
  · exact (nodup_unionKeys i e).filter _
  · intro k hk
    refine List.mem_filter.mpr ⟨hsu k hk, ?_⟩
    exact lookup_isSome.mpr (hsp k hk)

/-! Helper lemmas about the normalizer. -/

theorem map_fst_diffDeltas (prev : Option ℚ) (l : List (ℕ × Option ℚ)) :
    (diffDeltas prev l).map Prod.fst = l.map Prod.fst := by
  induction l generalizing prev with
  | nil => rfl
  | cons hd tl ih =>
    obtain ⟨t, v⟩ := hd
    simp [diffDeltas, ih]

theorem map_fst_cumulativeDeltas (l : List (ℕ × Option ℚ)) :
    (cumulativeDeltas l).map Prod.fst = l.map Prod.fst := by
  cases l with
  | nil => rfl
  | cons hd tl =>
    obtain ⟨t, v⟩ := hd
    simp [cumulativeDeltas, map_fst_diffDeltas]

theorem dropna_fst_sublist (l : List (ℕ × Option ℚ)) :
    List.Sublist ((dropna l).map Prod.fst) (l.map Prod.fst) := by
  induction l with
  | nil => simp [dropna]
  | cons hd tl ih =>
    obtain ⟨t, o⟩ := hd
    cases o with
    | none =>
      simpa [dropna, List.filterMap_cons] using ih.cons t
    | some q =>
      simpa [dropna, List.filterMap_cons] using ih.cons₂ t

theorem clampNeg_nonneg {o : Option ℚ} {q : ℚ} (h : clampNeg o = some q) : 0 ≤ q := by
  cases o with
  | none => simp [clampNeg] at h
  | some w =>
    simp only [clampNeg, Option.map_some', Option.some.injEq] at h
    subst h
    split
    · exact le_refl 0
    · exact le_of_not_lt (by assumption)

theorem mem_dropna {l : List (ℕ × Option ℚ)} {q : ℕ × ℚ}
    (h : q ∈ dropna l) : (q.1, some q.2) ∈ l := by
  simp only [dropna, List.mem_filterMap] at h
  obtain ⟨⟨t, o⟩, hmem, hmap⟩ := h
  cases o with
  | none => simp at hmap
  | some w =>
    simp only [Option.map_some', Option.some.injEq] at hmap
    subst hmap
    exact hmem

end EnergyComparison

namespace EnergyComparison

/-- C1: the claim asserts the aligned hour set is the triple intersection of
the import, export and price hour sets.  The code instead joins the UNION of
the import and export hour sets with the price hour set: with an import
series holding hour 0, an empty export series and a price at hour 0, the
hour 0 is absent from the export input yet produces an aligned row. -/
theorem claim_C1_counterexample :
    (combined [(0, 1)] [] [(0, 2)]).map CombinedRow.ts = [0] ∧
    (0 : ℕ) ∉ (([] : List (ℕ × ℚ)).map Prod.fst) := by
  refine ⟨by decide, by decide⟩

/-- C1 (amended): the aligned output's hour set equals the intersection of
the price hour set with the UNION of the import and export hour sets: an
hour produces an output row exactly when it carries a price and appears in
at least one of the two consumption series. -/
theorem claim_C1_amended (i e p : List (ℕ × ℚ)) (t : ℕ) :
    t ∈ (combined i e p).map CombinedRow.ts ↔
      ((t ∈ i.map Prod.fst ∨ t ∈ e.map Prod.fst) ∧ t ∈ p.map Prod.fst) :=
  mem_combined_ts

/-- C2: the claim asserts both tariffs are evaluated over the same aligned
rows with identical total kWh.  The fixed tariff is computed from the full
fetched series (line 204/226), before any alignment: with an import series
holding 5 kWh at an hour that carries no price, the fixed import cost bills
5 kWh while the aligned set is empty and bills 0. -/
theorem claim_C2_counterexample :
    combined [(0, 5)] [] [] = [] ∧
    fixed_import_cost (1/4) [(0, 5)] = 5/4 ∧
    dynamic_import_cost (1492/10000) (combined [(0, 5)] [] []) = 0 ∧
    aligned_import_kwh (combined [(0, 5)] [] []) ≠ total_import_kwh [(0, 5)] := by
  have hc : combined [(0, 5)] [] [] = [] := by decide
  refine ⟨hc, ?_, ?_, ?_⟩
  · norm_num [fixed_import_cost, total_import_kwh]
  · rw [hc]
    norm_num [dynamic_import_cost]
  · rw [hc]
    norm_num [aligned_import_kwh, total_import_kwh]

/-- C2 (amended): only the dynamic-tariff breakdown is computed from the
aligned rows; the fixed tariff's totals are computed from the full import
and export series.  The two evaluations cover the identical hour set and
total kWh exactly when every consumption hour also carries a price (with
deduplicated hour keys), in which case the aligned totals agree with the
full-series totals. -/
theorem claim_C2_amended (i e p : List (ℕ × ℚ))
    (hni : (i.map Prod.fst).Nodup) (hne : (e.map Prod.fst).Nodup)
    (hip : i.map Prod.fst ⊆ p.map Prod.fst)
    (hep : e.map Prod.fst ⊆ p.map Prod.fst) :
    aligned_import_kwh (combined i e p) = total_import_kwh i ∧
    aligned_export_kwh (combined i e p) = total_export_kwh e := by
  constructor
  · exact aligned_field_sum i e p CombinedRow.import_kwh i (fun k q => rfl) hni
      (fun t ht => hip ht) (fun t ht => mem_unionKeys.mpr (Or.inl ht))
  · exact aligned_field_sum i e p CombinedRow.export_kwh e (fun k q => rfl) hne
      (fun t ht => hep ht) (fun t ht => mem_unionKeys.mpr (Or.inr ht))

/-- C2 (witness): the amended theorem applied to a one-hour import series,
a one-hour export series and a price series covering both hours. -/
theorem claim_C2_witness :
    (([(0, 5)] : List (ℕ × ℚ)).map Prod.fst).Nodup ∧
    (([(3600, 7)] : List (ℕ × ℚ)).map Prod.fst).Nodup ∧
    ([(0, 5)] : List (ℕ × ℚ)).map Prod.fst ⊆
      ([(0, 1), (3600, 2)] : List (ℕ × ℚ)).map Prod.fst ∧
    ([(3600, 7)] : List (ℕ × ℚ)).map Prod.fst ⊆
      ([(0, 1), (3600, 2)] : List (ℕ × ℚ)).map Prod.fst ∧
    (aligned_import_kwh (combined [(0, 5)] [(3600, 7)] [(0, 1), (3600, 2)]) =
       total_import_kwh [(0, 5)] ∧
     aligned_export_kwh (combined [(0, 5)] [(3600, 7)] [(0, 1), (3600, 2)]) =
       total_export_kwh [(3600, 7)]) :=
  ⟨by decide, by decide, by decide, by decide,
   claim_C2_amended _ _ _ (by decide) (by decide) (by decide) (by decide)⟩

/-! Lemmas for the all-unusable case of the normalizer (C3). -/

theorem diffDeltas_snd_none {l : List (ℕ × Option ℚ)} (prev : Option ℚ)
    (h : ∀ q ∈ l, q.2 = none) : ∀ q ∈ diffDeltas prev l, q.2 = none := by
  induction l generalizing prev with
  | nil => intro q hq; cases hq
  | cons hd tl ih =>
    obtain ⟨t, v⟩ := hd
    have hv : v = none := h (t, v) (by simp)
    subst hv
    intro q hq
    rcases List.mem_cons.mp hq with rfl | hq'
    · rfl
    · exact ih none (fun w hw => h w (List.mem_cons_of_mem _ hw)) q hq'

theorem cumulativeDeltas_snd_none {l : List (ℕ × Option ℚ)}
    (h : ∀ q ∈ l, q.2 = none) : ∀ q ∈ cumulativeDeltas l, q.2 = none := by
  cases l with
  | nil => intro q hq; cases hq
  | cons hd tl =>
    obtain ⟨t, v⟩ := hd
    have hv : v = none := h (t, v) (by simp)
    subst hv
    intro q hq
    rcases List.mem_cons.mp hq with rfl | hq'
    · rfl
    · exact diffDeltas_snd_none none (fun w hw => h w (List.mem_cons_of_mem _ hw)) q hq'

theorem dropna_eq_nil {l : List (ℕ × Option ℚ)} (h : ∀ q ∈ l, q.2 = none) :
    dropna l = [] := by
  induction l with
  | nil => rfl
  | cons hd tl ih =>
    obtain ⟨t, v⟩ := hd
    have hv : v = none := h (t, v) (by simp)
    subst hv
    simp only [dropna, List.filterMap_cons]
    exact ih fun w hw => h w (List.mem_cons_of_mem _ hw)

/-- C3: the claim asserts the normalizer raises the no-data error whenever
the window yields zero usable samples, including when rows exist but every
value is absent or non-numeric.  The code raises only when the query
returns zero rows: one row whose `sum` is a present but non-numeric value
takes the cumulative branch, coerces to `NaN`, and is silently dropped,
returning an empty series without error. -/
theorem claim_C3_counterexample :
    get_statistics_data [⟨0, RawVal.nonNumeric, RawVal.null⟩] = .ok [] := by
  rfl

/-- C3 (amended): the normalizer raises the no-data error only when the
query returns zero rows; when rows exist but every `sum` and `state` value
is absent or non-numeric, it silently returns an empty delta series. -/
theorem claim_C3_amended (results : List Sample) (hne : results ≠ [])
    (hall : (results.all fun s =>
      s.sum.toNumeric.isNone && s.state.toNumeric.isNone) = true) :
    get_statistics_data results = .ok [] := by
  have hall' : ∀ s ∈ results, s.sum.toNumeric = none ∧ s.state.toNumeric = none := by
    intro s hs
    have hb := List.all_eq_true.mp hall s hs
    simp only [Bool.and_eq_true, Option.isNone_iff_eq_none] at hb
    exact hb
  have hsorted : ∀ s ∈ sortedSamples results,
      s.sum.toNumeric = none ∧ s.state.toNumeric = none := fun s hs =>
    hall' s ((List.perm_insertionSort tsLE results).subset hs)
  have hraw : ∀ q ∈ rawDeltas results, q.2 = none := by
    unfold rawDeltas
    split
    · refine cumulativeDeltas_snd_none ?_
      intro q hq
      obtain ⟨s, hs, rfl⟩ := List.mem_map.mp hq
      exact (hsorted s hs).1
    · intro q hq
      obtain ⟨s, hs, rfl⟩ := List.mem_map.mp hq
      exact (hsorted s hs).2
  have hhc : hourly_consumption results = [] := by
    unfold hourly_consumption
    refine dropna_eq_nil ?_
    intro q hq
    obtain ⟨w, hw, rfl⟩ := List.mem_map.mp hq
    have := hraw w hw
    simp [this, clampNeg]
  have hemp : results.isEmpty = false := by
    cases results with
    | nil => exact absurd rfl hne
    | cons a t => rfl
  simp [get_statistics_data, hemp, hhc]

/-- C3 (witness): the amended theorem applied to a single row whose `sum`
cell is present but non-numeric and whose `state` cell is null. -/
theorem claim_C3_witness :
    ([⟨0, RawVal.nonNumeric, RawVal.null⟩] : List Sample) ≠ [] ∧
    (([⟨0, RawVal.nonNumeric, RawVal.null⟩] : List Sample).all fun s =>
      s.sum.toNumeric.isNone && s.state.toNumeric.isNone) = true ∧
    get_statistics_data [⟨0, RawVal.nonNumeric, RawVal.null⟩] = .ok [] :=
  ⟨by decide, by decide, claim_C3_amended _ (by decide) (by decide)⟩

/-- C4: the claim asserts an empty import/export/price hour intersection
raises a `NoAlignedDataError` and that cost totals are never computed from
an empty aligned set.  The script has no such error: with an empty price
series the join is empty and the dynamic totals are silently computed from
it, yielding just the base fee. -/
theorem claim_C4_counterexample :
    combined [(0, 1)] [(0, 1)] [] = [] ∧
    total_dynamic_cost (1492/10000) (1/10) (1701/100) 12 (combined [(0, 1)] [(0, 1)] []) =
      (1701/100 : ℚ) * 12 := by
  have hc : combined [(0, 1)] [(0, 1)] [] = [] := by decide
  refine ⟨hc, ?_⟩
  rw [hc]
  norm_num [total_dynamic_cost, dynamic_import_cost, dynamic_export_credit]

/-- C4 (amended): an empty aligned set raises no error; the dynamic cost
totals are computed from it as zero, so the reported total is just the
monthly base fee times the number of months. -/
theorem claim_C4_amended (markup ep base : ℚ) (months : ℕ) (i e p : List (ℕ × ℚ))
    (h : combined i e p = []) :
    total_dynamic_cost markup ep base months (combined i e p) = base * (months : ℚ) := by
  rw [h]
  simp [total_dynamic_cost, dynamic_import_cost, dynamic_export_credit]

/-- C4 (witness): the amended theorem applied to disjoint consumption hours
and an empty price series. -/
theorem claim_C4_witness :
    combined [(0, 1)] [(3600, 1)] [] = [] ∧
    total_dynamic_cost (1492/10000) (1/10) (1701/100) 12 (combined [(0, 1)] [(3600, 1)] []) =
      (1701/100 : ℚ) * ((12 : ℕ) : ℚ) :=
  ⟨by decide, claim_C4_amended _ _ _ _ _ _ _ (by decide)⟩

/-! Lemmas about the series minimum (C5). -/

theorem seriesMin_eq_none {l : List ℚ} (h : seriesMin l = none) : l = [] := by
  cases l with
  | nil => rfl
  | cons q rest => simp [seriesMin] at h

theorem seriesMin_le {l : List ℚ} {m x : ℚ} (h : seriesMin l = some m) (hx : x ∈ l) :
    m ≤ x := by
  induction l generalizing m with
  | nil => cases hx
  | cons q rest ih =>
    simp only [seriesMin, Option.some.injEq] at h
    rcases List.mem_cons.mp hx with rfl | hx'
    · cases hr : seriesMin rest with
      | none =>
        rw [hr] at h
        simp only [Option.elim] at h
        exact le_of_eq h.symm
      | some mr =>
        rw [hr] at h
        simp only [Option.elim] at h
        exact h ▸ min_le_left _ _
    · cases hr : seriesMin rest with
      | none =>
        rw [seriesMin_eq_none hr] at hx'
        cases hx'
      | some mr =>
        rw [hr] at h
        simp only [Option.elim] at h
        exact h ▸ le_trans (min_le_right _ _) (ih hr hx')

theorem mem_combined_price {i e p : List (ℕ × ℚ)} {r : CombinedRow}
    (hr : r ∈ combined i e p) : r.price ∈ p.map Prod.snd := by
  simp only [combined, List.mem_filterMap] at hr
  obtain ⟨k, hk, hf⟩ := hr
  obtain ⟨q, hq, hrfl⟩ := Option.map_eq_some'.mp hf
  have hpr : r.price = q := by rw [← hrfl]
  rw [hpr]
  exact lookup_mem_snd hq

/-- C5: the claim asserts the report's price statistics are computed over
the price series restricted to aligned hours.  The script computes them
over the FULL fetched price series (`entsoe_prices.min()` etc.): with hour
3600 priced at 1 but unaligned, the reported minimum is 1 while the
aligned-hour minimum is 10. -/
theorem claim_C5_counterexample :
    report_price_min [(0, 10), (3600, 1)] = some 1 ∧
    spec_aligned_price_min [(0, 1)] [(0, 1)] [(0, 10), (3600, 1)] = some 10 ∧
    (1 : ℚ) ≠ 10 :=
  ⟨by decide, by decide, by decide⟩

/-- C5 (amended): the report's price statistics are computed over the full
fetched price series, not restricted to aligned hours; consequently the
reported minimum is a lower bound for every aligned hour's price and can be
attained at an hour outside the aligned set. -/
theorem claim_C5_amended (i e p : List (ℕ × ℚ)) (m : ℚ) (r : CombinedRow)
    (hm : report_price_min p = some m) (hr : r ∈ combined i e p) :
    m ≤ r.price :=
  seriesMin_le hm (mem_combined_price hr)

/-- C5 (witness): the amended theorem applied to the two-hour price series
of the counterexample and its single aligned row. -/
theorem claim_C5_witness :
    report_price_min [(0, 10), (3600, 1)] = some 1 ∧
    (⟨0, some 1, some 1, 10⟩ : CombinedRow) ∈
      combined [(0, 1)] [(0, 1)] [(0, 10), (3600, 1)] ∧
    (1 : ℚ) ≤ (⟨0, some 1, some 1, 10⟩ : CombinedRow).price :=
  ⟨by decide, by decide,
   claim_C5_amended [(0, 1)] [(0, 1)] [(0, 10), (3600, 1)] 1
     ⟨0, some 1, some 1, 10⟩ (by decide) (by decide)⟩

/-- C9: over exact arithmetic, the itemized form of the fixed-tariff import
cost (the per-hour sum of `import_kwh × price`) equals the aggregate form
(the aligned total import kWh times the constant price), for every aligned
set and every constant price. -/
theorem claim_C9 (rows : List CombinedRow) (price : ℚ) :
    spec_itemized_fixed_import_cost price rows = aligned_import_kwh rows * price := by
  unfold spec_itemized_fixed_import_cost aligned_import_kwh
  induction rows with
  | nil => simp
  | cons r rs ih => simp [ih, add_mul]

/-- C6: the normalizer emits the first cumulative value as the first delta,
then successive differences with negatives clamped to 0; the two worked
sequences of the spec evaluate as stated, and every emitted delta is
non-negative for every input. -/
theorem claim_C6 :
    get_statistics_data
        [⟨0, RawVal.num 100, RawVal.null⟩, ⟨3600, RawVal.num 110, RawVal.null⟩,
         ⟨7200, RawVal.num 125, RawVal.null⟩] =
      .ok [(0, 100), (3600, 10), (7200, 15)] ∧
    get_statistics_data
        [⟨0, RawVal.num 50, RawVal.null⟩, ⟨3600, RawVal.num 80, RawVal.null⟩,
         ⟨7200, RawVal.num 20, RawVal.null⟩, ⟨10800, RawVal.num 45, RawVal.null⟩] =
      .ok [(0, 50), (3600, 30), (7200, 0), (10800, 25)] ∧
    ∀ (samples : List Sample) (t : ℕ) (v : ℚ),
      (t, v) ∈ hourly_consumption samples → 0 ≤ v := by
  refine ⟨?_, ?_, ?_⟩
  · norm_num [get_statistics_data, hourly_consumption, rawDeltas, sortedSamples,
      cumulativeDeltas, diffDeltas, clampNeg, dropna, RawVal.toNumeric, RawVal.notna,
      List.insertionSort, List.orderedInsert, tsLE, List.filterMap_cons]
  · norm_num [get_statistics_data, hourly_consumption, rawDeltas, sortedSamples,
      cumulativeDeltas, diffDeltas, clampNeg, dropna, RawVal.toNumeric, RawVal.notna,
      List.insertionSort, List.orderedInsert, tsLE, List.filterMap_cons]
  · intro samples t v hv
    unfold hourly_consumption at hv
    obtain ⟨w, hw, heq⟩ := List.mem_map.mp (mem_dropna hv)
    have hcl : clampNeg w.2 = some v := congrArg Prod.snd heq
    exact clampNeg_nonneg hcl

/-- C6 (witness): the non-negativity clause applied to a one-sample series
and its single emitted delta. -/
theorem claim_C6_witness :
    ((0 : ℕ), (100 : ℚ)) ∈ hourly_consumption [⟨0, RawVal.num 100, RawVal.null⟩] ∧
    (0 : ℚ) ≤ 100 :=
  ⟨by decide, claim_C6.2.2 [⟨0, RawVal.num 100, RawVal.null⟩] 0 100 (by decide)⟩

/-- C7: the claim asserts the normalizer's output keys are timestamps
truncated to the hour with at most one entry per distinct hour, for every
input, including sub-hourly sampling.  The code neither truncates nor
deduplicates: two samples 30 minutes apart produce two entries inside the
same hour, the second keyed by the raw half-hour timestamp. -/
theorem claim_C7_counterexample :
    hourly_consumption
        [⟨0, RawVal.num 10, RawVal.null⟩, ⟨1800, RawVal.num 20, RawVal.null⟩] =
      [(0, 10), (1800, 10)] ∧
    hourFloor 1800 = hourFloor 0 ∧
    (1800 : ℕ) ≠ hourFloor 1800 := by
  refine ⟨?_, by decide, by decide⟩
  norm_num [hourly_consumption, rawDeltas, sortedSamples, cumulativeDeltas, diffDeltas,
    clampNeg, dropna, RawVal.toNumeric, RawVal.notna, List.insertionSort,
    List.orderedInsert, tsLE, List.filterMap_cons]

/-- C7 (amended): the normalizer's output is sorted ascending by timestamp
and every output key is one of the raw sample timestamps (no truncation to
the hour boundary); when samples are finer than hourly, several entries may
share an hour. -/
theorem claim_C7_amended (samples : List Sample) :
    List.Sorted (· ≤ ·) ((hourly_consumption samples).map Prod.fst) ∧
    ∀ q ∈ hourly_consumption samples, q.1 ∈ samples.map Sample.start_ts := by
  have hfst : ((rawDeltas samples).map fun p => (p.1, clampNeg p.2)).map Prod.fst
      = (sortedSamples samples).map Sample.start_ts := by
    rw [List.map_map]
    have h1 : (Prod.fst ∘ fun p : ℕ × Option ℚ => (p.1, clampNeg p.2)) = Prod.fst := rfl
    rw [h1]
    unfold rawDeltas
    split
    · rw [map_fst_cumulativeDeltas, List.map_map]
      rfl
    · rw [List.map_map]
      rfl
  have hsub : List.Sublist ((hourly_consumption samples).map Prod.fst)
      ((sortedSamples samples).map Sample.start_ts) := by
    unfold hourly_consumption
    rw [← hfst]
    exact dropna_fst_sublist _
  have hsorted : List.Sorted (· ≤ ·) ((sortedSamples samples).map Sample.start_ts) :=
    (List.sorted_insertionSort tsLE samples).map Sample.start_ts fun _ _ h => h
  constructor
  · exact List.Pairwise.sublist hsub hsorted
  · intro q hq
    have h1 : q.1 ∈ (hourly_consumption samples).map Prod.fst :=
      List.mem_map_of_mem _ hq
    have h2 := hsub.subset h1
    obtain ⟨s, hs, heq⟩ := List.mem_map.mp h2
    rw [← heq]
    exact List.mem_map_of_mem _ ((List.perm_insertionSort tsLE samples).subset hs)

/-- C7 (witness): the membership clause applied to a one-sample series. -/
theorem claim_C7_witness :
    ((7 : ℕ), (100 : ℚ)) ∈ hourly_consumption [⟨7, RawVal.num 100, RawVal.null⟩] ∧
    (7 : ℕ) ∈ ([⟨7, RawVal.num 100, RawVal.null⟩] : List Sample).map Sample.start_ts :=
  ⟨by decide,
   (claim_C7_amended [⟨7, RawVal.num 100, RawVal.null⟩]).2 (7, 100) (by decide)⟩

/-- C8: the dynamic tariff prices each hour at the market price plus the
constant markup before summation, and export credit uses the constant
export price; the spec's three-hour scenario evaluates to import cost
0.65, export credit 0.15 and net total 0.50 with a zero base fee. -/
theorem claim_C8 :
    dynamic_import_cost (1/20)
        (combined [(0, 2), (3600, 1), (7200, 0)] [(0, 0), (3600, 1/2), (7200, 1)]
          [(0, 1/10), (3600, 3/10), (7200, 1/20)]) = 13/20 ∧
    dynamic_export_credit (1/10)
        (combined [(0, 2), (3600, 1), (7200, 0)] [(0, 0), (3600, 1/2), (7200, 1)]
          [(0, 1/10), (3600, 3/10), (7200, 1/20)]) = 3/20 ∧
    total_dynamic_cost (1/20) (1/10) 0 12
        (combined [(0, 2), (3600, 1), (7200, 0)] [(0, 0), (3600, 1/2), (7200, 1)]
          [(0, 1/10), (3600, 3/10), (7200, 1/20)]) = 1/2 := by
  refine ⟨?_, ?_, ?_⟩
  · norm_num [dynamic_import_cost, hourly_import_cost, combined, unionKeys, lookup,
      List.insertionSort, List.orderedInsert, List.dedup, List.filterMap_cons]
  · norm_num [dynamic_export_credit, hourly_export_credit, combined, unionKeys, lookup,
      List.insertionSort, List.orderedInsert, List.dedup, List.filterMap_cons]
  · norm_num [total_dynamic_cost, dynamic_import_cost, dynamic_export_credit,
      hourly_import_cost, hourly_export_credit, combined, unionKeys, lookup,
      List.insertionSort, List.orderedInsert, List.dedup, List.filterMap_cons]

/-! Lemmas for the missing-value gap behavior of the differencing (C10). -/

theorem bind_none_map {w : Option ℚ} :
    (w.bind fun a => (none : Option ℚ).map fun b => a - b) = none := by
  cases w <;> rfl

theorem diffDeltas_none_at {l : List (ℕ × Option ℚ)} :
    ∀ (prev : Option ℚ) (j t : ℕ), l[j]? = some (t, none) →
      (diffDeltas prev l)[j]? = some (t, none) ∧
      ∀ u w, l[j+1]? = some (u, w) → (diffDeltas prev l)[j+1]? = some (u, none) := by
  induction l with
  | nil =>
    intro prev j t h
    simp at h
  | cons hd tl ih =>
    obtain ⟨a, v⟩ := hd
    intro prev j t h
    cases j with
    | zero =>
      simp only [List.getElem?_cons_zero, Option.some.injEq, Prod.mk.injEq] at h
      obtain ⟨rfl, rfl⟩ := h
      refine ⟨by simp [diffDeltas], ?_⟩
      intro u w hw
      cases tl with
      | nil => simp at hw
      | cons hd2 tl2 =>
        obtain ⟨b, z⟩ := hd2
        simp only [List.getElem?_cons_succ, List.getElem?_cons_zero,
          Option.some.injEq, Prod.mk.injEq] at hw
        obtain ⟨rfl, rfl⟩ := hw
        simp [diffDeltas, bind_none_map]
    | succ k =>
      have h' : tl[k]? = some (t, none) := by simpa using h
      have hk := ih v k t h'
      refine ⟨by simpa [diffDeltas] using hk.1, ?_⟩
      intro u w hw
      have hw' : tl[k+1]? = some (u, w) := by simpa using hw
      simpa [diffDeltas] using hk.2 u w hw'

theorem cumulativeDeltas_none_at {l : List (ℕ × Option ℚ)} (j t : ℕ)
    (h : l[j]? = some (t, none)) :
    (cumulativeDeltas l)[j]? = some (t, none) ∧
    ∀ u w, l[j+1]? = some (u, w) → (cumulativeDeltas l)[j+1]? = some (u, none) := by
  cases l with
  | nil => simp at h
  | cons hd tl =>
    obtain ⟨a, v⟩ := hd
    cases j with
    | zero =>
      simp only [List.getElem?_cons_zero, Option.some.injEq, Prod.mk.injEq] at h
      obtain ⟨rfl, rfl⟩ := h
      refine ⟨by simp [cumulativeDeltas], ?_⟩
      intro u w hw
      cases tl with
      | nil => simp at hw
      | cons hd2 tl2 =>
        obtain ⟨b, z⟩ := hd2
        simp only [List.getElem?_cons_succ, List.getElem?_cons_zero,
          Option.some.injEq, Prod.mk.injEq] at hw
        obtain ⟨rfl, rfl⟩ := hw
        simp [cumulativeDeltas, diffDeltas, bind_none_map]
    | succ k =>
      have h' : tl[k]? = some (t, none) := by simpa using h
      have hk := diffDeltas_none_at v k t h'
      refine ⟨by simpa [cumulativeDeltas] using hk.1, ?_⟩
      intro u w hw
      have hw' : tl[k+1]? = some (u, w) := by simpa using hw
      simpa [cumulativeDeltas] using hk.2 u w hw'

/-- C10: in cumulative mode a sample with an absent or non-numeric value
loses its own hour AND the next present sample's hour: the diff at the next
sample is taken against the absent value and is `NaN`, so both positions
are dropped and the consumption accumulated across the gap never appears.
Shown on every three-sample window with an unusable middle sample, and
positionally on the differencing for every series. -/
theorem claim_C10 (t1 t2 t3 : ℕ) (v1 v3 : ℚ)
    (h12 : t1 ≤ t2) (h23 : t2 ≤ t3) (h1 : 0 ≤ v1) :
    hourly_consumption
        [⟨t1, RawVal.num v1, RawVal.null⟩, ⟨t2, RawVal.nonNumeric, RawVal.null⟩,
         ⟨t3, RawVal.num v3, RawVal.null⟩] = [(t1, v1)] ∧
    ∀ (l : List (ℕ × Option ℚ)) (j t : ℕ), l[j]? = some (t, none) →
      (cumulativeDeltas l)[j]? = some (t, none) ∧
      ∀ u w, l[j+1]? = some (u, w) → (cumulativeDeltas l)[j+1]? = some (u, none) := by
  constructor
  · have hs : List.Sorted tsLE
        [⟨t1, RawVal.num v1, RawVal.null⟩, ⟨t2, RawVal.nonNumeric, RawVal.null⟩,
         ⟨t3, RawVal.num v3, RawVal.null⟩] := by
      refine List.pairwise_cons.mpr ⟨?_, List.pairwise_cons.mpr ⟨?_, by simp⟩⟩
      · intro b hb
        rcases List.mem_cons.mp hb with rfl | hb
        · exact h12
        · rcases List.mem_cons.mp hb with rfl | hb
          · exact le_trans h12 h23
          · cases hb
      · intro b hb
        rcases List.mem_cons.mp hb with rfl | hb
        · exact h23
        · cases hb
    have hss : sortedSamples
        [⟨t1, RawVal.num v1, RawVal.null⟩, ⟨t2, RawVal.nonNumeric, RawVal.null⟩,
         ⟨t3, RawVal.num v3, RawVal.null⟩] =
        [⟨t1, RawVal.num v1, RawVal.null⟩, ⟨t2, RawVal.nonNumeric, RawVal.null⟩,
         ⟨t3, RawVal.num v3, RawVal.null⟩] := hs.insertionSort_eq
    unfold hourly_consumption rawDeltas
    rw [hss]
    simp [RawVal.notna, RawVal.toNumeric, cumulativeDeltas, diffDeltas, clampNeg,
      dropna, List.filterMap_cons, not_lt.mpr h1]
  · intro l j t h
    exact cumulativeDeltas_none_at j t h

/-- C10 (witness): the three-sample clause at hours 0, 3600, 7200 with the
middle cumulative value non-numeric. -/
theorem claim_C10_witness :
    (0 : ℕ) ≤ 3600 ∧ (3600 : ℕ) ≤ 7200 ∧ (0 : ℚ) ≤ 100 ∧
    hourly_consumption
        [⟨0, RawVal.num 100, RawVal.null⟩, ⟨3600, RawVal.nonNumeric, RawVal.null⟩,
         ⟨7200, RawVal.num 160, RawVal.null⟩] = [(0, 100)] :=
  ⟨by decide, by decide, by decide,
   (claim_C10 0 3600 7200 100 160 (by decide) (by decide) (by decide)).1⟩

end EnergyComparison
